import Mathlib

/-!
# Verification of `bert_helpers.py`

A shallow embedding of the training / evaluation helpers of the
BERT-training repository, together with proofs about them.

Modelling conventions:
* The file system is a total map from paths to current contents; a file
  that does not exist has contents `""`.  Opening a file in append mode
  (`"a"` / `"ab"`) and writing `t` turns contents `c` into `c ++ t`.
* Model parameters, optimizer-internal state and batches are abstract
  types `M`, `S`, `B`; the library calls the helpers make (forward pass,
  `loss.backward()` + `optimizer.step()`, `accuracy_score`) are supplied
  as functions of those states, so a batch's accuracy and loss depend on
  the parameters the model holds when the batch is processed, exactly as
  in the script.
* Library routines with documented pure semantics (`np.argmin`,
  `scipy.stats.mode`, `sklearn.metrics.accuracy_score`) are embedded as
  Lean functions following those semantics.
* Fallible paths (a `TypeError` from `range(None)`, the
  `ZeroDivisionError` from dividing by `len(dataloader)`) are embedded
  with `Except`.
-/

namespace BertHelpers

/-- The file system: each path maps to its current contents (`""` when the
file does not exist). -/
abbrev FS := String → String

/-- `os.path.sep` (and `os.sep`, the same object) on the platform the
script targets. -/
def sep : String := "/"

/-- Opening `path` in append mode and writing `text`: the contents of
`path` grow by `text`; every other file is untouched. -/
def fsAppend (fs : FS) (path text : String) : FS :=
  fun q => if q = path then fs q ++ text else fs q

/-- Python `"\n" in text`: a newline occurs anywhere in the string. -/
def containsNewline (s : String) : Bool := s.data.contains '\n'

/-- Whether `text` ends with a newline character (the condition the spec
speaks about; the code tests `containsNewline` instead). -/
def endsWithNewline (s : String) : Bool := s.data.getLast? == some '\n'

/-- `write_to_file` (bert_helpers.py lines 240-246): open `folder/file` in
append mode `"a"`, write `text`, then write a single `" "` exactly when
`"\n"` does not occur anywhere in `text`. -/
def write_to_file (fs : FS) (folder file text : String) : FS :=
  fsAppend fs (folder ++ sep ++ file)
    (text ++ if containsNewline text then "" else " ")

/-- The per-run output folder (lines 76-79 in `train` and 208-211 in
`evaluate`).  The Python conditional expression parses as
`folder = (folder + sep + "normal") if dropout == 0 else (folder + sep + "dropout")`. -/
def runFolder (root : String) (pretrained : Bool) (dropout : ℚ) : String :=
  let folder := root ++ sep ++ "evaluation_data" ++ sep ++
    (if pretrained then "pretrained" else "untrained")
  if dropout = 0 then folder ++ sep ++ "normal" else folder ++ sep ++ "dropout"

/-- `sklearn.metrics.accuracy_score`: the fraction of samples whose
prediction equals the label. -/
def accuracy_score (labels preds : List ℕ) : ℚ :=
  (((labels.zip preds).countP fun xy => xy.1 == xy.2 : ℕ) : ℚ) /
    ((labels.length : ℕ) : ℚ)

/-- A confusion matrix: a count table indexed by
(true label, predicted label).  `evaluate` allocates `np.zeros((3, 3))`
and every index this script produces lies in `0..2`; the table is kept
total over `ℕ × ℕ` for convenience. -/
abbrev CMatrix := ℕ → ℕ → ℕ

/-- `np.zeros((3, 3))`. -/
def cmZero : CMatrix := fun _ _ => 0

/-- One iteration of `confusion_matrix[labels[i], predictions[i]] += 1`. -/
def cmBump (cm : CMatrix) (l p : ℕ) : CMatrix :=
  fun a b => if a = l ∧ b = p then cm a b + 1 else cm a b

/-- `update_confusion_matrix` (lines 225-229): for each sample index `i`
in `range(len(predictions))`, increment the cell at
(`labels[i]`, `predictions[i]`).  (When `labels` is shorter than
`predictions` Python raises; the claims only concern equal lengths.) -/
def update_confusion_matrix (cm : CMatrix) : List ℕ → List ℕ → CMatrix
  | [], _ => cm
  | _ :: _, [] => cm
  | p :: ps, l :: ls => update_confusion_matrix (cmBump cm l p) ps ls

/-- Number of samples whose true label is `a` and whose prediction is
`b`. -/
def pairCount (predictions labels : List ℕ) (a b : ℕ) : ℕ :=
  (labels.zip predictions).countP fun x => x.1 == a && x.2 == b

/-- A torch module as `turn_on_dropout` sees it: the name of its class
and its `training` flag.  `model.modules()` is modelled as the list of
all sub-modules of the model. -/
structure TorchModule where
  className : String
  training : Bool

/-- A throwaway default module, used as the `getD` default. -/
def anyModule : TorchModule := ⟨"", false⟩

/-- `turn_on_dropout` (lines 232-237): set `m.training = True` for every
module whose class name starts with `'Dropout'`; touch nothing else. -/
def turn_on_dropout (ms : List TorchModule) : List TorchModule :=
  ms.map fun m =>
    if m.className.startsWith "Dropout" then { m with training := true } else m

/-- The replacement test of the mode scan: candidate `x` displaces the
current best `b` when it occurs strictly more often, or equally often
with a smaller value.  Scanning with this test realises
`scipy.stats.mode`, which returns the smallest among the most frequent
values. -/
def modeBetter (l : List ℕ) (x b : ℕ) : Bool :=
  l.count b < l.count x || (l.count x == l.count b && x < b)

/-- The scan underlying `statsMode`. -/
def statsModeAux (l : List ℕ) : List ℕ → ℕ → ℕ
  | [], best => best
  | x :: xs, best => statsModeAux l xs (if modeBetter l x best then x else best)

/-- `scipy.stats.mode` on a one-dimensional sample: the most frequent
value, ties resolved towards the smallest value. -/
def statsMode : List ℕ → ℕ
  | [] => 0
  | x :: xs => statsModeAux (x :: xs) xs x

/-- Lines 198-201 of `evaluate`: `np.argmax(..., axis=2)` turns the `T`
stochastic passes into a `T × n` table of per-sample predicted classes;
`stats.mode` along axis 0 (the default) takes, for each of the `n`
samples, the mode of its column, that is of its `T` sampled predictions. -/
def mcdVote (sampled : List (List ℕ)) : List ℕ :=
  (List.transpose sampled).map statsMode

/-- Minimum of a list of rationals (`0` for `[]`, which `np.argmin`
rejects anyway). -/
def listMin : List ℚ → ℚ
  | [] => 0
  | x :: xs => xs.foldl min x

/-- `np.argmin` on a one-dimensional array: the index of the first
occurrence of the minimum value. -/
def argminQ (l : List ℚ) : ℕ := l.indexOf (listMin l)

/-- `j` is the first (lowest) index attaining the minimum of `l`. -/
def isFirstArgmin (l : List ℚ) (j : ℕ) : Prop :=
  j < l.length ∧ (∀ i, i < l.length → l.getD j 0 ≤ l.getD i 0) ∧
    ∀ i, i < j → l.getD j 0 < l.getD i 0

/-- The external framework as the helpers use it, for model-parameter
type `M`, optimizer-internal-state type `S` and batch type `B`:
`acc m b` is the batch accuracy `accuracy_score(labels, argmax(logits))`
of the forward pass of model state `m` on batch `b`; `loss m b` the
scalar loss of that pass; `step m s b` the (model, optimizer-state) pair
after `loss.backward(); optimizer.step()`; and `adamwFresh` the internal
state of a freshly constructed `torch.optim.AdamW`. -/
structure StepEnv (M S B : Type) where
  acc : M → B → ℚ
  loss : M → B → ℚ
  step : M → S → B → M × S
  adamwFresh : S

/-- What `training_step` produces: the updated model parameters and
optimizer state (mutated in place in Python) and the returned pair. -/
structure StepResult (M S : Type) where
  model : M
  opt : S
  acc : ℚ
  loss : ℚ

/-- The loop of `training_step` (lines 114-124): per batch, forward pass
(loss and batch accuracy from the current parameters), then backward and
optimizer step, accumulating the running sums. -/
def training_stepAux {M S B : Type} (env : StepEnv M S B) :
    List B → M → S → ℚ → ℚ → StepResult M S
  | [], m, s, accSum, lossSum => ⟨m, s, accSum, lossSum⟩
  | b :: bs, m, s, accSum, lossSum =>
    let l := env.loss m b
    let a := env.acc m b
    let ms := env.step m s b
    training_stepAux env bs ms.1 ms.2 (accSum + a) (lossSum + l)

/-- `training_step` (lines 101-125): one pass over the dataloader,
returning `average_acc / len(dataloader)` and
`epoch_loss / len(dataloader)` along with the updated states. -/
def training_step {M S B : Type} (env : StepEnv M S B) (m : M) (s : S)
    (dl : List B) : StepResult M S :=
  let r := training_stepAux env dl m s 0 0
  ⟨r.model, r.opt, r.acc / ((dl.length : ℕ) : ℚ), r.loss / ((dl.length : ℕ) : ℚ)⟩

/-- The loop of `validation_step` (lines 141-149): forward pass and batch
accuracy only, under `torch.no_grad()`, no parameter update. -/
def validation_stepAux {M S B : Type} (env : StepEnv M S B) (m : M) :
    List B → ℚ → ℚ → ℚ × ℚ
  | [], accSum, lossSum => (accSum, lossSum)
  | b :: bs, accSum, lossSum =>
    validation_stepAux env m bs (accSum + env.acc m b) (lossSum + env.loss m b)

/-- `validation_step` (lines 128-150). -/
def validation_step {M S B : Type} (env : StepEnv M S B) (m : M)
    (dl : List B) : ℚ × ℚ :=
  let r := validation_stepAux env m dl 0 0
  (r.1 / ((dl.length : ℕ) : ℚ), r.2 / ((dl.length : ℕ) : ℚ))

/-- The optimizer object passed to `train`: `state` is its internal
accumulated per-parameter state (first and second moments, step
counters — keyed by the parameter tensors), and `params` is the value of
the plain attribute `params`, which nothing in torch reads and which only
line 89 ever assigns (`none` until then). -/
structure Optimizer (S : Type) where
  state : S
  params : Option S

/-- The state threaded through `train`'s epoch loop: the model
parameters, the optimizer, the contents of the checkpoint files
`saves/model_early_stopping_<i>.pkl` (index `i` = epoch), the recorded
`val_losses`, and the log-file system. -/
structure TrainState (M S : Type) where
  model : M
  opt : Optimizer S
  saves : List M
  valLosses : List ℚ
  fs : FS

/-- One iteration of `for epoch in range(epochs)` (lines 60-84):
checkpoint the current parameters (`torch.save`, *before* the epoch's
training pass), run a training pass and then a validation pass, record
the validation loss, and append the four metric values to the log
files. -/
def trainEpoch {M S B : Type} (env : StepEnv M S B) (trainDL valDL : List B)
    (folder : String) (st : TrainState M S) : TrainState M S :=
  let saves := st.saves ++ [st.model]
  let r := training_step env st.model st.opt.state trainDL
  let v := validation_step env r.model valDL
  let fs := write_to_file st.fs folder "train_accuracy.txt" (toString r.acc)
  let fs := write_to_file fs folder "train_loss.txt" (toString r.loss)
  let fs := write_to_file fs folder "val_accuracy.txt" (toString v.1)
  let fs := write_to_file fs folder "val_loss.txt" (toString v.2)
  ⟨r.model, ⟨r.opt, st.opt.params⟩, saves, st.valLosses ++ [v.2], fs⟩

/-- The epoch loop of `train`. -/
def trainLoop {M S B : Type} (env : StepEnv M S B) (trainDL valDL : List B)
    (folder : String) : ℕ → TrainState M S → TrainState M S
  | 0, st => st
  | n + 1, st =>
    trainLoop env trainDL valDL folder n (trainEpoch env trainDL valDL folder st)

/-- The evolution of the (model, optimizer-state) pair under successive
epoch-level training passes: `iterMS env trainDL n x` is the pair
entering epoch `n` when training started from `x`. -/
def iterMS {M S B : Type} (env : StepEnv M S B) (trainDL : List B) :
    ℕ → M × S → M × S
  | 0, x => x
  | n + 1, x =>
    let r := training_step env x.1 x.2 trainDL
    iterMS env trainDL n (r.model, r.opt)

/-- What `train` leaves behind: the returned (restored) model, the
optimizer object as mutated, the checkpoint files, the recorded
validation losses, and the log files. -/
structure TrainResult (M S : Type) where
  model : M
  opt : Optimizer S
  saves : List M
  valLosses : List ℚ
  fs : FS

/-- `train` (lines 30-98).  After the epoch loop it reloads the
checkpoint `model_early_stopping_<np.argmin(val_losses)>.pkl` into the
model (lines 86-88), executes
`optimizer.params = torch.optim.AdamW(model.parameters())` (lines
89-90) — which stores a fresh AdamW in the attribute `params` and leaves
the optimizer's own accumulated state untouched — and appends a `"\n"`
separator to the four log files (lines 92-95). -/
def train {M S B : Type} (env : StepEnv M S B) (model : M) (opt : Optimizer S)
    (trainDL valDL : List B) (epochs : ℕ) (pretrained : Bool) (dropout : ℚ)
    (fsInit : FS) (root : String) : TrainResult M S :=
  let folder := runFolder root pretrained dropout
  let st := trainLoop env trainDL valDL folder epochs ⟨model, opt, [], [], fsInit⟩
  let m := st.saves.getD (argminQ st.valLosses) st.model
  let o : Optimizer S := ⟨st.opt.state, some env.adamwFresh⟩
  let fs := write_to_file st.fs folder "train_accuracy.txt" "\n"
  let fs := write_to_file fs folder "train_loss.txt" "\n"
  let fs := write_to_file fs folder "val_accuracy.txt" "\n"
  let fs := write_to_file fs folder "val_loss.txt" "\n"
  ⟨m, o, st.saves, st.valLosses, fs⟩

/-- The per-batch trace of `training_step`: the (accuracy, loss) pair of
each batch, computed — as in the loop — from the parameters the model
holds when that batch is reached. -/
def trainTrace {M S B : Type} (env : StepEnv M S B) :
    List B → M → S → List (ℚ × ℚ)
  | [], _, _ => []
  | b :: bs, m, s =>
    (env.acc m b, env.loss m b) :: trainTrace env bs (env.step m s b).1 (env.step m s b).2

/-- The evaluation-time framework for batch type `B`: per batch, the true
labels, the point predictions (`np.argmax(model(**batch)[1], axis=1)`
with every module in eval mode), and — for each stochastic-pass index
`t < T` — the predicted classes of the `t`-th forward pass with the
dropout modules active.  The stochastic passes are data of the
environment because dropout sampling is randomness external to the
script. -/
structure EvalEnv (B : Type) where
  labels : B → List ℕ
  pointPreds : B → List ℕ
  mcdPreds : B → ℕ → List ℕ

/-- The state accumulated by `evaluate`'s batch loop, plus an
instrumentation counter `passes` for the number of `model(**batch)`
forward calls made. -/
structure EvalState where
  cm : CMatrix
  cmMcd : CMatrix
  acc : ℚ
  accMcd : ℚ
  passes : ℕ

/-- `evaluate`'s initial accumulators (lines 176-179). -/
def evalInit : EvalState := ⟨cmZero, cmZero, 0, 0, 0⟩

/-- The Python error raised by `range(T)` when `T` is `None`. -/
def rangeNoneMsg : String :=
  "TypeError: NoneType object cannot be interpreted as an integer"

/-- The Python error raised by `x / len(dataloader)` on an empty
dataloader. -/
def zeroDivMsg : String := "ZeroDivisionError: division by zero"

/-- One iteration of the batch loop of `evaluate` (lines 182-206): point
prediction, confusion-matrix and accuracy accumulation; then, only when
`dropout > 0`, the MCD block — `turn_on_dropout`, `T` stochastic passes
(`range(T)` raises when `T` is `None`), per-sample majority vote, and the
MCD accumulators. -/
def evalBatch {B : Type} (env : EvalEnv B) (dropout : ℚ) (T : Option ℕ)
    (b : B) (st : EvalState) : Except String EvalState :=
  let preds := env.pointPreds b
  let lab := env.labels b
  let st1 : EvalState :=
    ⟨update_confusion_matrix st.cm preds lab, st.cmMcd,
      st.acc + accuracy_score lab preds, st.accMcd, st.passes + 1⟩
  if 0 < dropout then
    match T with
    | none => Except.error rangeNoneMsg
    | some t =>
      let sampled := (List.range t).map (env.mcdPreds b)
      let predsMcd := mcdVote sampled
      Except.ok
        ⟨st1.cm, update_confusion_matrix st1.cmMcd predsMcd lab,
          st1.acc, st1.accMcd + accuracy_score lab predsMcd, st1.passes + t⟩
  else
    Except.ok st1

/-- The batch loop of `evaluate`; an uncaught Python exception aborts the
loop. -/
def evalLoop {B : Type} (env : EvalEnv B) (dropout : ℚ) (T : Option ℕ) :
    List B → EvalState → Except String EvalState
  | [], st => Except.ok st
  | b :: bs, st =>
    match evalBatch env dropout T b st with
    | Except.error e => Except.error e
    | Except.ok st1 => evalLoop env dropout T bs st1

/-- One row of `np.savetxt(..., fmt='%d')` on a 3-column matrix. -/
def cmRow (cm : CMatrix) (i : ℕ) : String :=
  toString (cm i 0) ++ " " ++ toString (cm i 1) ++ " " ++ toString (cm i 2) ++ "\n"

/-- `np.savetxt(f, cm, fmt='%d', footer="\n")` on a 3×3 matrix: three
space-separated integer rows, then the comment-prefixed footer. -/
def cmSavetxt (cm : CMatrix) : String :=
  cmRow cm 0 ++ cmRow cm 1 ++ cmRow cm 2 ++ "# \n"

/-- `evaluate` (lines 153-222): run the batch loop, then write the mean
accuracy and the confusion matrix — and, only when `dropout > 0`, their
MCD counterparts — to the per-run folder, and return the plain mean
accuracy.  All file writes happen after the loop (lines 208-221), so an
exception inside the loop (`range(None)`) leaves the file system exactly
as it was; an empty dataloader raises at line 213 before any write.  The
result carries the final file system, and the error case carries the file
system at the moment of the exception. -/
def evaluate {B : Type} (env : EvalEnv B) (dl : List B) (pretrained : Bool)
    (dropout : ℚ) (T : Option ℕ) (fsInit : FS) (root : String) :
    Except (String × FS) (ℚ × FS) :=
  match evalLoop env dropout T dl evalInit with
  | Except.error e => Except.error (e, fsInit)
  | Except.ok st =>
    if dl.length = 0 then Except.error (zeroDivMsg, fsInit)
    else
      let folder := runFolder root pretrained dropout
      let fs := write_to_file fsInit folder "test_accuracy.txt"
        (toString (st.acc / ((dl.length : ℕ) : ℚ)) ++ "\n")
      let fs := fsAppend fs (folder ++ sep ++ "confusion_matrix.txt") (cmSavetxt st.cm)
      let fs :=
        if 0 < dropout then
          fsAppend
            (write_to_file fs folder "test_accuracy_mcd.txt"
              (toString (st.accMcd / ((dl.length : ℕ) : ℚ)) ++ "\n"))
            (folder ++ sep ++ "confusion_matrix_mcd.txt") (cmSavetxt st.cmMcd)
        else fs
      Except.ok (st.acc / ((dl.length : ℕ) : ℚ), fs)

/-- A tiny concrete instance of the framework for evaluating the train
helpers on closed inputs: the model is a version counter that each
training pass increments, the optimizer state counts `optimizer.step`
calls, and the validation loss of model version `m` is `5` for the
initial parameters and `3` afterwards (so two epochs record the tied
losses `[3, 3]`). -/
def cenv : StepEnv ℕ ℕ Unit where
  acc := fun _ _ => 0
  loss := fun m _ => if m = 0 then 5 else 3
  step := fun m s _ => (m + 1, s + 1)
  adamwFresh := 0

/-- An empty file system. -/
def fsEmpty : FS := fun _ => ""

/-- A concrete instance for the step-mean claim: batches are labelled by
naturals, with batch accuracies `1`, `1/2`, `0` and unit losses. -/
def cenv8 : StepEnv Unit Unit ℕ where
  acc := fun _ b => if b = 0 then 1 else if b = 1 then 1/2 else 0
  loss := fun _ _ => 1
  step := fun _ _ _ => ((), ())
  adamwFresh := ()

/-- A concrete one-batch evaluation environment. -/
def eenv : EvalEnv Unit where
  labels := fun _ => [0]
  pointPreds := fun _ => [0]
  mcdPreds := fun _ _ => [0]

/-- `a` is at least as good a mode candidate for `l` as `b`: it occurs
strictly more often, or equally often with `a ≤ b`. -/
def beatsCnt (l : List ℕ) (a b : ℕ) : Prop :=
  l.count b < l.count a ∨ (l.count a = l.count b ∧ a ≤ b)

/-- A concrete module list: one dropout layer (off) and one linear layer
(left in training mode by its caller). -/
def ms0 : List TorchModule := [⟨"Dropout", false⟩, ⟨"Linear", true⟩]

/-- `T = 5` stochastic passes over a single sample, predicting
`0, 0, 1, 1, 1`: as a `T × n` table, five rows of one entry. -/
def sampled0 : List (List ℕ) := [[0], [0], [1], [1], [1]]

/-- C6: `turn_on_dropout` sets the training flag to true exactly for the
dropout sub-layers (the modules whose class name starts with `Dropout`)
and changes nothing else: the module list keeps its length, every dropout
module ends with `training = true` and its other data unchanged, and
every other module is returned exactly as it was, so no training-mode
behaviour outside dropout layers is re-enabled. -/
theorem C6_turn_on_dropout_targets_only_dropout_modules
    (ms : List TorchModule) (i : ℕ) (hi : i < ms.length) :
    (turn_on_dropout ms).length = ms.length ∧
      ((ms.getD i anyModule).className.startsWith "Dropout" = true →
        (turn_on_dropout ms).getD i anyModule =
          { ms.getD i anyModule with training := true }) ∧
      ((ms.getD i anyModule).className.startsWith "Dropout" = false →
        (turn_on_dropout ms).getD i anyModule = ms.getD i anyModule) := by
  have hlen : (turn_on_dropout ms).length = ms.length := by
    simp [turn_on_dropout]
  have hi2 : i < (turn_on_dropout ms).length := by rw [hlen]; exact hi
  have hmap : (turn_on_dropout ms).getD i anyModule =
      if (ms.getD i anyModule).className.startsWith "Dropout" then
        { ms.getD i anyModule with training := true }
      else ms.getD i anyModule := by
    rw [List.getD_eq_getElem _ _ hi2, List.getD_eq_getElem _ _ hi]
    simp [turn_on_dropout]
  refine ⟨hlen, ?_, ?_⟩
  · intro hcond; rw [hmap, if_pos hcond]
  · intro hcond
    rw [hmap, if_neg]
    intro hx
    rw [hcond] at hx
    exact Bool.false_ne_true hx

/-- Witness for C6 at a concrete module list: index 0 is a dropout layer,
index 1 is not. -/
theorem C6_witness :
    ((0 < ms0.length ∧
        ((turn_on_dropout ms0).length = ms0.length ∧
          ((ms0.getD 0 anyModule).className.startsWith "Dropout" = true →
            (turn_on_dropout ms0).getD 0 anyModule =
              { ms0.getD 0 anyModule with training := true }) ∧
          ((ms0.getD 0 anyModule).className.startsWith "Dropout" = false →
            (turn_on_dropout ms0).getD 0 anyModule = ms0.getD 0 anyModule))) ∧
      (1 < ms0.length ∧
        ((turn_on_dropout ms0).length = ms0.length ∧
          ((ms0.getD 1 anyModule).className.startsWith "Dropout" = true →
            (turn_on_dropout ms0).getD 1 anyModule =
              { ms0.getD 1 anyModule with training := true }) ∧
          ((ms0.getD 1 anyModule).className.startsWith "Dropout" = false →
            (turn_on_dropout ms0).getD 1 anyModule = ms0.getD 1 anyModule)))) :=
  ⟨⟨by decide, C6_turn_on_dropout_targets_only_dropout_modules ms0 0 (by decide)⟩,
    ⟨by decide, C6_turn_on_dropout_targets_only_dropout_modules ms0 1 (by decide)⟩⟩

/-- The cell-level effect of `update_confusion_matrix`: each cell grows
by the number of (label, prediction) pairs hitting it. -/
theorem update_cm_cell (ps : List ℕ) :
    ∀ (ls : List ℕ) (cm : CMatrix) (a b : ℕ), ls.length = ps.length →
      update_confusion_matrix cm ps ls a b = cm a b + pairCount ps ls a b := by
  induction ps with
  | nil =>
    intro ls cm a b h
    have : ls = [] := List.length_eq_zero.mp h
    subst this
    simp [update_confusion_matrix, pairCount]
  | cons p ps ih =>
    intro ls cm a b h
    cases ls with
    | nil => simp at h
    | cons l ls =>
      have h2 : ls.length = ps.length := by simpa using h
      have hrec := ih ls (cmBump cm l p) a b h2
      have hstep : update_confusion_matrix cm (p :: ps) (l :: ls) a b =
          update_confusion_matrix (cmBump cm l p) ps ls a b := rfl
      rw [hstep, hrec]
      have hpc : pairCount (p :: ps) (l :: ls) a b =
          pairCount ps ls a b + if l == a && p == b then 1 else 0 := by
        simp [pairCount, List.countP_cons]
      rw [hpc]
      by_cases hab : a = l ∧ b = p
      · have hbeq : (l == a && p == b) = true := by
          rcases hab with ⟨h1, h2⟩; subst h1; subst h2; simp
        simp [cmBump, hab, hbeq]
        omega
      · have hbeq : (l == a && p == b) = false := by
          rcases Decidable.not_and_iff_or_not.mp hab with hx | hx <;>
            simp [beq_iff_eq] <;> intro hl
          · exact absurd hl.symm hx
          · intro hp; exact absurd hp.symm hx
        simp [cmBump, hab, hbeq]

/-- C7: `update_confusion_matrix` adds to each cell `(l, p)` exactly the
number of samples with true label `l` and prediction `p`, changes no
other cell, performs no normalization, and is therefore commutative
across batches: two batches applied in either order give the same
matrix. -/
theorem C7_update_confusion_matrix_accumulates_and_commutes
    (cm : CMatrix) (pA lA pB lB : List ℕ)
    (hA : pA.length = lA.length) (hB : pB.length = lB.length) :
    (∀ a b, update_confusion_matrix cm pA lA a b = cm a b + pairCount pA lA a b) ∧
      update_confusion_matrix (update_confusion_matrix cm pA lA) pB lB =
        update_confusion_matrix (update_confusion_matrix cm pB lB) pA lA := by
  refine ⟨fun a b => update_cm_cell pA lA cm a b hA.symm, ?_⟩
  funext a b
  rw [update_cm_cell pB lB _ a b hB.symm, update_cm_cell pA lA cm a b hA.symm,
    update_cm_cell pA lA _ a b hA.symm, update_cm_cell pB lB cm a b hB.symm]
  omega

/-- Witness for C7 at concrete batches. -/
theorem C7_witness :
    (([0, 1] : List ℕ).length = ([1, 1] : List ℕ).length ∧
        ([2] : List ℕ).length = ([0] : List ℕ).length) ∧
      ((∀ a b, update_confusion_matrix cmZero [0, 1] [1, 1] a b =
          cmZero a b + pairCount [0, 1] [1, 1] a b) ∧
        update_confusion_matrix (update_confusion_matrix cmZero [0, 1] [1, 1]) [2] [0] =
          update_confusion_matrix (update_confusion_matrix cmZero [2] [0]) [0, 1] [1, 1]) :=
  ⟨⟨by decide, by decide⟩,
    C7_update_confusion_matrix_accumulates_and_commutes cmZero [0, 1] [1, 1] [2] [0]
      (by decide) (by decide)⟩

/-- Counterexample to C9 as stated: the text `"a\nb"` does not end with a
newline, yet `write_to_file` appends it without the trailing space,
because the code tests `"\n" in text` (a newline anywhere), not a
trailing newline. -/
theorem C9_counterexample :
    write_to_file fsEmpty "d" "f.txt" "a\nb" ("d" ++ sep ++ "f.txt") = "a\nb" ∧
      endsWithNewline "a\nb" = false ∧ ("a\nb" : String) ≠ "a\nb " := by
  refine ⟨?_, by decide, by decide⟩
  have h : containsNewline "a\nb" = true := by decide
  simp [write_to_file, fsAppend, fsEmpty, h]

/-- C9 as amended: each append through `write_to_file` is the supplied
text followed by a single space or by nothing, with the space added
exactly when the text contains no newline character anywhere (not merely
no trailing newline); the file is opened in append mode, so existing
content — of this file and of every other file — is never overwritten. -/
theorem C9_amended_space_iff_no_newline_anywhere
    (fs : FS) (folder file text other : String)
    (h : other ≠ folder ++ sep ++ file) :
    write_to_file fs folder file text (folder ++ sep ++ file) =
        fs (folder ++ sep ++ file) ++ text ++
          (if containsNewline text then "" else " ") ∧
      write_to_file fs folder file text other = fs other := by
  constructor
  · simp [write_to_file, fsAppend, String.append_assoc]
  · simp [write_to_file, fsAppend, h]

/-- Witness for the amended C9 at concrete strings. -/
theorem C9_amended_witness :
    (("z" : String) ≠ "d" ++ sep ++ "f.txt") ∧
      (write_to_file fsEmpty "d" "f.txt" "x" ("d" ++ sep ++ "f.txt") =
          fsEmpty ("d" ++ sep ++ "f.txt") ++ "x" ++
            (if containsNewline "x" then "" else " ") ∧
        write_to_file fsEmpty "d" "f.txt" "x" "z" = fsEmpty "z") :=
  ⟨by decide, C9_amended_space_iff_no_newline_anywhere fsEmpty "d" "f.txt" "x" "z" (by decide)⟩

/-- `beatsCnt` is reflexive. -/
theorem beatsCnt_refl (l : List ℕ) (a : ℕ) : beatsCnt l a a :=
  Or.inr ⟨rfl, le_refl a⟩

/-- `beatsCnt` is transitive. -/
theorem beatsCnt_trans (l : List ℕ) (a b c : ℕ)
    (h1 : beatsCnt l a b) (h2 : beatsCnt l b c) : beatsCnt l a c := by
  unfold beatsCnt at *
  omega

/-- A successful `modeBetter` test yields `beatsCnt`. -/
theorem modeBetter_true (l : List ℕ) (x b : ℕ) (h : modeBetter l x b = true) :
    beatsCnt l x b := by
  unfold modeBetter at h
  unfold beatsCnt
  simp only [Bool.or_eq_true, Bool.and_eq_true, decide_eq_true_eq, beq_iff_eq] at h
  omega

/-- A failed `modeBetter` test yields `beatsCnt` the other way. -/
theorem modeBetter_false (l : List ℕ) (x b : ℕ) (h : modeBetter l x b = false) :
    beatsCnt l b x := by
  unfold modeBetter at h
  unfold beatsCnt
  simp only [Bool.or_eq_false_iff, Bool.and_eq_false_iff, decide_eq_false_iff_not,
    beq_eq_false_iff_ne, ne_eq, not_lt] at h
  omega

/-- The mode scan returns its seed or an element of the scanned list. -/
theorem statsModeAux_mem (l : List ℕ) :
    ∀ (rest : List ℕ) (best : ℕ),
      statsModeAux l rest best = best ∨ statsModeAux l rest best ∈ rest := by
  intro rest
  induction rest with
  | nil => intro best; exact Or.inl rfl
  | cons x xs ih =>
    intro best
    rcases ih (if modeBetter l x best then x else best) with h | h
    · by_cases hb : modeBetter l x best
      · refine Or.inr ?_
        have : statsModeAux l (x :: xs) best = x := by
          simp only [statsModeAux, if_pos hb] at h ⊢
          exact h
        rw [this]
        exact List.mem_cons_self x xs
      · refine Or.inl ?_
        simp only [statsModeAux, if_neg hb] at h ⊢
        exact h
    · refine Or.inr ?_
      have : statsModeAux l (x :: xs) best =
          statsModeAux l xs (if modeBetter l x best then x else best) := rfl
      rw [this]
      exact List.mem_cons_of_mem x h

/-- The mode scan dominates its seed and every scanned element. -/
theorem statsModeAux_beats (l : List ℕ) :
    ∀ (rest : List ℕ) (best : ℕ),
      beatsCnt l (statsModeAux l rest best) best ∧
        ∀ y ∈ rest, beatsCnt l (statsModeAux l rest best) y := by
  intro rest
  induction rest with
  | nil =>
    intro best
    exact ⟨beatsCnt_refl l best, by simp⟩
  | cons x xs ih =>
    intro best
    have hstep : statsModeAux l (x :: xs) best =
        statsModeAux l xs (if modeBetter l x best then x else best) := rfl
    by_cases hb : modeBetter l x best
    · rcases ih x with ⟨h1, h2⟩
      rw [hstep, if_pos hb]
      refine ⟨beatsCnt_trans l _ x best h1 (modeBetter_true l x best hb), ?_⟩
      intro y hy
      rcases List.mem_cons.mp hy with rfl | hy
      · exact h1
      · exact h2 y hy
    · rcases ih best with ⟨h1, h2⟩
      rw [hstep, if_neg hb]
      refine ⟨h1, ?_⟩
      intro y hy
      rcases List.mem_cons.mp hy with rfl | hy
      · have hfb : modeBetter l y best = false := Bool.of_not_eq_true hb
        exact beatsCnt_trans l _ best y h1 (modeBetter_false l y best hfb)
      · exact h2 y hy

/-- `scipy.stats.mode` correctness: on a nonempty sample the result is an
element of maximal multiplicity, and among the values of maximal
multiplicity it is the smallest. -/
theorem statsMode_spec (l : List ℕ) (h : l ≠ []) :
    statsMode l ∈ l ∧ (∀ v, l.count v ≤ l.count (statsMode l)) ∧
      ∀ v, l.count v = l.count (statsMode l) → statsMode l ≤ v := by
  obtain ⟨x, xs, rfl⟩ := List.exists_cons_of_ne_nil h
  have haux := statsModeAux_beats (x :: xs) xs x
  have hdef : statsMode (x :: xs) = statsModeAux (x :: xs) xs x := rfl
  have hmem : statsMode (x :: xs) ∈ x :: xs := by
    rcases statsModeAux_mem (x :: xs) xs x with h1 | h1
    · rw [hdef, h1]; exact List.mem_cons_self x xs
    · rw [hdef]; exact List.mem_cons_of_mem x h1
  have hbeats : ∀ y ∈ x :: xs, beatsCnt (x :: xs) (statsMode (x :: xs)) y := by
    intro y hy
    rcases List.mem_cons.mp hy with rfl | hy
    · rw [hdef]; exact haux.1
    · rw [hdef]; exact haux.2 y hy
  refine ⟨hmem, ?_, ?_⟩
  · intro v
    by_cases hv : v ∈ x :: xs
    · rcases hbeats v hv with h1 | h1
      · exact le_of_lt h1
      · exact le_of_eq h1.1.symm
    · have h0 : (x :: xs).count v = 0 := List.count_eq_zero.mpr hv
      rw [h0]
      exact Nat.zero_le _
  · intro v hv
    by_cases hvm : v ∈ x :: xs
    · rcases hbeats v hvm with h1 | h1
      · omega
      · exact h1.2
    · exfalso
      have h0 : (x :: xs).count v = 0 := List.count_eq_zero.mpr hvm
      have h1 : 0 < (x :: xs).count (statsMode (x :: xs)) :=
        List.count_pos_iff.mpr hmem
      omega

/-- C4: in `evaluate`'s MCD path each sample's final prediction is the
statistical mode of its `T` sampled class predictions (the `i`-th entry
of the majority vote is the mode of the `i`-th column of the `T × n`
prediction table), the mode has maximal multiplicity, ties go to the
lowest class index, and on the spec's concrete examples
`[0,0,1,1,1] ↦ 1` and `[0,0,1,1] ↦ 0`. -/
theorem C4_mcd_majority_vote (sampled : List (List ℕ)) (i : ℕ)
    (hi : i < (List.transpose sampled).length)
    (hne : (List.transpose sampled).getD i [] ≠ []) :
    (mcdVote sampled).getD i 0 = statsMode ((List.transpose sampled).getD i []) ∧
      statsMode ((List.transpose sampled).getD i []) ∈ (List.transpose sampled).getD i [] ∧
      (∀ v, ((List.transpose sampled).getD i []).count v ≤
        ((List.transpose sampled).getD i []).count
          (statsMode ((List.transpose sampled).getD i []))) ∧
      (∀ v, ((List.transpose sampled).getD i []).count v =
          ((List.transpose sampled).getD i []).count
            (statsMode ((List.transpose sampled).getD i [])) →
        statsMode ((List.transpose sampled).getD i []) ≤ v) ∧
      statsMode [0, 0, 1, 1, 1] = 1 ∧ statsMode [0, 0, 1, 1] = 0 := by
  have hmap : (mcdVote sampled).getD i 0 =
      statsMode ((List.transpose sampled).getD i []) := by
    have h0 : statsMode ([] : List ℕ) = 0 := rfl
    rw [mcdVote, ← h0]
    exact (List.transpose sampled).getD_map ([] : List ℕ) statsMode
  obtain ⟨h1, h2, h3⟩ := statsMode_spec ((List.transpose sampled).getD i []) hne
  exact ⟨hmap, h1, h2, h3, by decide, by decide⟩

/-- Witness for C4: five passes over one sample predicting
`0, 0, 1, 1, 1`. -/
theorem C4_witness :
    (0 < (List.transpose sampled0).length ∧ (List.transpose sampled0).getD 0 [] ≠ []) ∧
      ((mcdVote sampled0).getD 0 0 = statsMode ((List.transpose sampled0).getD 0 []) ∧
        statsMode ((List.transpose sampled0).getD 0 []) ∈ (List.transpose sampled0).getD 0 [] ∧
        (∀ v, ((List.transpose sampled0).getD 0 []).count v ≤
          ((List.transpose sampled0).getD 0 []).count
            (statsMode ((List.transpose sampled0).getD 0 []))) ∧
        (∀ v, ((List.transpose sampled0).getD 0 []).count v =
            ((List.transpose sampled0).getD 0 []).count
              (statsMode ((List.transpose sampled0).getD 0 [])) →
          statsMode ((List.transpose sampled0).getD 0 []) ≤ v) ∧
        statsMode [0, 0, 1, 1, 1] = 1 ∧ statsMode [0, 0, 1, 1] = 0) :=
  ⟨⟨by decide, by decide⟩, C4_mcd_majority_vote sampled0 0 (by decide) (by decide)⟩

/-- The running sums of the `training_step` loop equal the sums over the
per-batch trace. -/
theorem training_stepAux_sums {M S B : Type} (env : StepEnv M S B) :
    ∀ (bs : List B) (m : M) (s : S) (a c : ℚ),
      (training_stepAux env bs m s a c).acc =
          a + ((trainTrace env bs m s).map Prod.fst).sum ∧
        (training_stepAux env bs m s a c).loss =
          c + ((trainTrace env bs m s).map Prod.snd).sum := by
  intro bs
  induction bs with
  | nil => intro m s a c; simp [training_stepAux, trainTrace]
  | cons b bs ih =>
    intro m s a c
    have hstep : training_stepAux env (b :: bs) m s a c =
        training_stepAux env bs (env.step m s b).1 (env.step m s b).2
          (a + env.acc m b) (c + env.loss m b) := rfl
    have htr : trainTrace env (b :: bs) m s =
        (env.acc m b, env.loss m b) ::
          trainTrace env bs (env.step m s b).1 (env.step m s b).2 := rfl
    obtain ⟨h1, h2⟩ :=
      ih (env.step m s b).1 (env.step m s b).2 (a + env.acc m b) (c + env.loss m b)
    rw [hstep, htr]
    constructor
    · rw [h1]; simp; ring
    · rw [h2]; simp; ring

/-- The running sums of the `validation_step` loop. -/
theorem validation_stepAux_sums {M S B : Type} (env : StepEnv M S B) (m : M) :
    ∀ (bs : List B) (a c : ℚ),
      validation_stepAux env m bs a c =
        (a + (bs.map fun b => env.acc m b).sum,
          c + (bs.map fun b => env.loss m b).sum) := by
  intro bs
  induction bs with
  | nil => intro a c; simp [validation_stepAux]
  | cons b bs ih =>
    intro a c
    have hstep : validation_stepAux env m (b :: bs) a c =
        validation_stepAux env m bs (a + env.acc m b) (c + env.loss m b) := rfl
    rw [hstep, ih (a + env.acc m b) (c + env.loss m b)]
    simp
    constructor <;> ring

/-- C8: `training_step` and `validation_step` return the sum of the
per-batch accuracies divided by the number of batches and the sum of the
per-batch losses divided by the number of batches — the unweighted
arithmetic mean over batches (a batch's size never enters the
average). -/
theorem C8_steps_return_unweighted_batch_means {M S B : Type}
    (env : StepEnv M S B) (m : M) (s : S) (dl : List B) (h : dl ≠ []) :
    (training_step env m s dl).acc =
        ((trainTrace env dl m s).map Prod.fst).sum / ((dl.length : ℕ) : ℚ) ∧
      (training_step env m s dl).loss =
        ((trainTrace env dl m s).map Prod.snd).sum / ((dl.length : ℕ) : ℚ) ∧
      validation_step env m dl =
        ((dl.map fun b => env.acc m b).sum / ((dl.length : ℕ) : ℚ),
          (dl.map fun b => env.loss m b).sum / ((dl.length : ℕ) : ℚ)) := by
  obtain ⟨h1, h2⟩ := training_stepAux_sums env dl m s 0 0
  have hv := validation_stepAux_sums env m dl 0 0
  refine ⟨?_, ?_, ?_⟩
  · show (training_stepAux env dl m s 0 0).acc / ((dl.length : ℕ) : ℚ) = _
    rw [h1, zero_add]
  · show (training_stepAux env dl m s 0 0).loss / ((dl.length : ℕ) : ℚ) = _
    rw [h2, zero_add]
  · show ((validation_stepAux env m dl 0 0).1 / ((dl.length : ℕ) : ℚ),
      (validation_stepAux env m dl 0 0).2 / ((dl.length : ℕ) : ℚ)) = _
    rw [hv]
    simp

/-- Witness for C8: three batches with accuracies `1`, `1/2`, `0` give
mean accuracy `1/2` (the spec's example), and the theorem instantiates
at them. -/
theorem C8_witness :
    (([0, 1, 2] : List ℕ) ≠ [] ∧ (training_step cenv8 () () [0, 1, 2]).acc = 1 / 2 ∧
        (trainTrace cenv8 [0, 1, 2] () ()).map Prod.fst = [1, 1 / 2, 0]) ∧
      ((training_step cenv8 () () [0, 1, 2]).acc =
          ((trainTrace cenv8 [0, 1, 2] () ()).map Prod.fst).sum /
            ((([0, 1, 2] : List ℕ).length : ℕ) : ℚ) ∧
        (training_step cenv8 () () [0, 1, 2]).loss =
          ((trainTrace cenv8 [0, 1, 2] () ()).map Prod.snd).sum /
            ((([0, 1, 2] : List ℕ).length : ℕ) : ℚ) ∧
        validation_step cenv8 () [0, 1, 2] =
          (([0, 1, 2].map fun b => cenv8.acc () b).sum /
              ((([0, 1, 2] : List ℕ).length : ℕ) : ℚ),
            ([0, 1, 2].map fun b => cenv8.loss () b).sum /
              ((([0, 1, 2] : List ℕ).length : ℕ) : ℚ))) :=
  ⟨⟨by decide, by norm_num [training_step, training_stepAux, cenv8],
      by norm_num [trainTrace, cenv8]⟩,
    C8_steps_return_unweighted_batch_means cenv8 () () [0, 1, 2] (by decide)⟩

/-- `getD` does not depend on the default at in-range indices. -/
theorem getD_default_eq {α : Type} (l : List α) (i : ℕ) (d1 d2 : α)
    (h : i < l.length) : l.getD i d1 = l.getD i d2 := by
  rw [List.getD_eq_getElem l d1 h, List.getD_eq_getElem l d2 h]

/-- A `min`-fold is below its seed and every folded element. -/
theorem listMin_foldl_le (ys : List ℚ) :
    ∀ (a : ℚ), ys.foldl min a ≤ a ∧ ∀ x ∈ ys, ys.foldl min a ≤ x := by
  induction ys with
  | nil => intro a; exact ⟨le_refl a, by simp⟩
  | cons z zs ih =>
    intro a
    have hfold : (z :: zs).foldl min a = zs.foldl min (min a z) := rfl
    obtain ⟨h1, h2⟩ := ih (min a z)
    refine ⟨?_, ?_⟩
    · rw [hfold]; exact le_trans h1 (min_le_left a z)
    · intro x hx
      rcases List.mem_cons.mp hx with rfl | hx
      · rw [hfold]; exact le_trans h1 (min_le_right a x)
      · rw [hfold]; exact h2 x hx

/-- `listMin` is a lower bound of the list. -/
theorem listMin_le (l : List ℚ) (x : ℚ) (hx : x ∈ l) : listMin l ≤ x := by
  cases l with
  | nil => cases hx
  | cons y ys =>
    rcases List.mem_cons.mp hx with rfl | hx
    · exact (listMin_foldl_le ys x).1
    · exact (listMin_foldl_le ys y).2 x hx

/-- A `min`-fold returns its seed or a folded element. -/
theorem listMin_foldl_mem (ys : List ℚ) :
    ∀ (a : ℚ), ys.foldl min a = a ∨ ys.foldl min a ∈ ys := by
  induction ys with
  | nil => intro a; exact Or.inl rfl
  | cons z zs ih =>
    intro a
    have hfold : (z :: zs).foldl min a = zs.foldl min (min a z) := rfl
    rcases ih (min a z) with h | h
    · rcases le_total a z with hle | hle
      · left; rw [hfold, h, min_eq_left hle]
      · right; rw [hfold, h, min_eq_right hle]; exact List.mem_cons_self z zs
    · right; rw [hfold]; exact List.mem_cons_of_mem z h

/-- `listMin` of a nonempty list is attained. -/
theorem listMin_mem (l : List ℚ) (h : l ≠ []) : listMin l ∈ l := by
  cases l with
  | nil => exact absurd rfl h
  | cons y ys =>
    have hdef : listMin (y :: ys) = ys.foldl min y := rfl
    rcases listMin_foldl_mem ys y with h1 | h1
    · rw [hdef, h1]; exact List.mem_cons_self y ys
    · rw [hdef]; exact List.mem_cons_of_mem y h1

/-- Entries strictly before `indexOf a` differ from `a`. -/
theorem indexOf_earlier (l : List ℚ) (a : ℚ) :
    ∀ i, i < l.indexOf a → l.getD i 0 ≠ a := by
  induction l with
  | nil => intro i hi; simp [List.indexOf_nil] at hi
  | cons x xs ih =>
    intro i hi
    by_cases hxa : x = a
    · rw [List.indexOf_cons_eq xs hxa] at hi; omega
    · rw [List.indexOf_cons_ne xs hxa] at hi
      cases i with
      | zero => simpa [List.getD_cons_zero] using hxa
      | succ j =>
        have hj : j < xs.indexOf a := by omega
        simpa [List.getD_cons_succ] using ih j hj

/-- `np.argmin` correctness on a nonempty list: the returned index is in
range, attains the minimum, and every strictly earlier entry is strictly
larger — the first minimum wins. -/
theorem argminQ_spec (l : List ℚ) (h : l ≠ []) :
    isFirstArgmin l (argminQ l) ∧ l.getD (argminQ l) 0 = listMin l := by
  have hm : listMin l ∈ l := listMin_mem l h
  have hlt : l.indexOf (listMin l) < l.length := List.indexOf_lt_length.mpr hm
  have hget : l.getD (argminQ l) 0 = listMin l := by
    have h1 : l.getD (l.indexOf (listMin l)) 0 = l.get ⟨l.indexOf (listMin l), hlt⟩ := by
      rw [List.getD_eq_getElem l 0 hlt, List.get_eq_getElem]
    rw [argminQ, h1, List.indexOf_get hlt]
  refine ⟨⟨hlt, ?_, ?_⟩, hget⟩
  · intro i hi
    rw [hget]
    have hmem : l.getD i 0 ∈ l := by
      rw [List.getD_eq_getElem l 0 hi]; exact List.getElem_mem hi
    exact listMin_le l _ hmem
  · intro i hi
    have hne : l.getD i 0 ≠ listMin l := indexOf_earlier l (listMin l) i hi
    have hilen : i < l.length := lt_trans hi hlt
    have hmem : l.getD i 0 ∈ l := by
      rw [List.getD_eq_getElem l 0 hilen]; exact List.getElem_mem hilen
    have hle : listMin l ≤ l.getD i 0 := listMin_le l _ hmem
    rw [hget]
    exact lt_of_le_of_ne hle (Ne.symm hne)

/-- The model after `n` loop iterations is the `n`-fold epoch image of
the initial (model, optimizer-state) pair. -/
theorem trainLoop_model {M S B : Type} (env : StepEnv M S B)
    (tDL vDL : List B) (folder : String) :
    ∀ (n : ℕ) (st : TrainState M S),
      (trainLoop env tDL vDL folder n st).model =
        (iterMS env tDL n (st.model, st.opt.state)).1 := by
  intro n
  induction n with
  | zero => intro st; rfl
  | succ n ih =>
    intro st
    have hstep : trainLoop env tDL vDL folder (n + 1) st =
        trainLoop env tDL vDL folder n (trainEpoch env tDL vDL folder st) := rfl
    rw [hstep, ih]
    rfl

/-- The optimizer after `n` loop iterations: its internal state is the
`n`-fold epoch image, and its `params` attribute is untouched by the
loop. -/
theorem trainLoop_opt {M S B : Type} (env : StepEnv M S B)
    (tDL vDL : List B) (folder : String) :
    ∀ (n : ℕ) (st : TrainState M S),
      (trainLoop env tDL vDL folder n st).opt.state =
          (iterMS env tDL n (st.model, st.opt.state)).2 ∧
        (trainLoop env tDL vDL folder n st).opt.params = st.opt.params := by
  intro n
  induction n with
  | zero => intro st; exact ⟨rfl, rfl⟩
  | succ n ih =>
    intro st
    have hstep : trainLoop env tDL vDL folder (n + 1) st =
        trainLoop env tDL vDL folder n (trainEpoch env tDL vDL folder st) := rfl
    obtain ⟨h1, h2⟩ := ih (trainEpoch env tDL vDL folder st)
    constructor
    · rw [hstep, h1]; rfl
    · rw [hstep, h2]; rfl

/-- The checkpoint files after `n` loop iterations: one per epoch, each
holding the parameters the model had entering that epoch (the
`torch.save` at lines 62-63 precedes the epoch's training pass). -/
theorem trainLoop_saves {M S B : Type} (env : StepEnv M S B)
    (tDL vDL : List B) (folder : String) :
    ∀ (n : ℕ) (st : TrainState M S),
      (trainLoop env tDL vDL folder n st).saves =
        st.saves ++ (List.range n).map
          (fun k => (iterMS env tDL k (st.model, st.opt.state)).1) := by
  intro n
  induction n with
  | zero => intro st; simp [trainLoop]
  | succ n ih =>
    intro st
    have hstep : trainLoop env tDL vDL folder (n + 1) st =
        trainLoop env tDL vDL folder n (trainEpoch env tDL vDL folder st) := rfl
    rw [hstep, ih]
    have hsaves : (trainEpoch env tDL vDL folder st).saves = st.saves ++ [st.model] := rfl
    rw [hsaves, List.range_succ_eq_map, List.map_cons, List.map_map, List.append_assoc,
      List.singleton_append]
    have hcongr : (List.range n).map
        (fun k => (iterMS env tDL k
          ((trainEpoch env tDL vDL folder st).model,
            (trainEpoch env tDL vDL folder st).opt.state)).1) =
        (List.range n).map
          ((fun k => (iterMS env tDL k (st.model, st.opt.state)).1) ∘ Nat.succ) :=
      List.map_congr_left fun a _ => rfl
    rw [hcongr]
    rfl

/-- The recorded validation losses after `n` loop iterations: the loss of
epoch `k` is computed on the parameters *after* epoch `k`'s training
pass. -/
theorem trainLoop_valLosses {M S B : Type} (env : StepEnv M S B)
    (tDL vDL : List B) (folder : String) :
    ∀ (n : ℕ) (st : TrainState M S),
      (trainLoop env tDL vDL folder n st).valLosses =
        st.valLosses ++ (List.range n).map
          (fun k => (validation_step env
            (iterMS env tDL (k + 1) (st.model, st.opt.state)).1 vDL).2) := by
  intro n
  induction n with
  | zero => intro st; simp [trainLoop]
  | succ n ih =>
    intro st
    have hstep : trainLoop env tDL vDL folder (n + 1) st =
        trainLoop env tDL vDL folder n (trainEpoch env tDL vDL folder st) := rfl
    rw [hstep, ih]
    have hvl : (trainEpoch env tDL vDL folder st).valLosses =
        st.valLosses ++ [(validation_step env
          (training_step env st.model st.opt.state tDL).model vDL).2] := rfl
    rw [hvl, List.range_succ_eq_map, List.map_cons, List.map_map, List.append_assoc,
      List.singleton_append]
    have hcongr : (List.range n).map
        (fun k => (validation_step env
          (iterMS env tDL (k + 1)
            ((trainEpoch env tDL vDL folder st).model,
              (trainEpoch env tDL vDL folder st).opt.state)).1 vDL).2) =
        (List.range n).map
          ((fun k => (validation_step env
            (iterMS env tDL (k + 1) (st.model, st.opt.state)).1 vDL).2) ∘ Nat.succ) :=
      List.map_congr_left fun a _ => rfl
    rw [hcongr]
    rfl

/-- How the components of `train`'s result arise from the epoch loop:
the returned model is the checkpoint at `np.argmin(val_losses)`, the
checkpoint list and loss list are the loop's, the optimizer keeps the
state the loop left, and its `params` attribute holds the fresh AdamW. -/
theorem train_proj {M S B : Type} (env : StepEnv M S B) (model : M)
    (opt : Optimizer S) (trainDL valDL : List B) (epochs : ℕ)
    (pretrained : Bool) (dropout : ℚ) (fsInit : FS) (root : String) :
    (train env model opt trainDL valDL epochs pretrained dropout fsInit root).model =
        (trainLoop env trainDL valDL (runFolder root pretrained dropout) epochs
            ⟨model, opt, [], [], fsInit⟩).saves.getD
          (argminQ (trainLoop env trainDL valDL (runFolder root pretrained dropout)
            epochs ⟨model, opt, [], [], fsInit⟩).valLosses)
          (trainLoop env trainDL valDL (runFolder root pretrained dropout) epochs
            ⟨model, opt, [], [], fsInit⟩).model ∧
      (train env model opt trainDL valDL epochs pretrained dropout fsInit root).saves =
        (trainLoop env trainDL valDL (runFolder root pretrained dropout) epochs
          ⟨model, opt, [], [], fsInit⟩).saves ∧
      (train env model opt trainDL valDL epochs pretrained dropout fsInit root).valLosses =
        (trainLoop env trainDL valDL (runFolder root pretrained dropout) epochs
          ⟨model, opt, [], [], fsInit⟩).valLosses ∧
      (train env model opt trainDL valDL epochs pretrained dropout fsInit root).opt.state =
        (trainLoop env trainDL valDL (runFolder root pretrained dropout) epochs
          ⟨model, opt, [], [], fsInit⟩).opt.state ∧
      (train env model opt trainDL valDL epochs pretrained dropout fsInit root).opt.params =
        some env.adamwFresh :=
  ⟨rfl, rfl, rfl, rfl, rfl⟩

/-- C1: for every call to `train` with `epochs ≥ 1` (and dataloaders on
which the Python loop completes), the model state after the epoch loop
equals the contents of the checkpoint file
`model_early_stopping_<j>.pkl` where `j = np.argmin(val_losses)`, and
`j` is the first (lowest) epoch index attaining the minimum of the
recorded validation losses — on ties the earliest epoch's checkpoint is
restored. -/
theorem C1_train_restores_first_min_loss_checkpoint {M S B : Type}
    (env : StepEnv M S B) (model : M) (opt : Optimizer S)
    (trainDL valDL : List B) (epochs : ℕ) (pretrained : Bool) (dropout : ℚ)
    (fsInit : FS) (root : String)
    (hE : 1 ≤ epochs) (hT : trainDL ≠ []) (hV : valDL ≠ []) :
    (train env model opt trainDL valDL epochs pretrained dropout fsInit root).model =
        (train env model opt trainDL valDL epochs pretrained dropout fsInit root).saves.getD
          (argminQ (train env model opt trainDL valDL epochs pretrained dropout
            fsInit root).valLosses) model ∧
      isFirstArgmin
        (train env model opt trainDL valDL epochs pretrained dropout fsInit root).valLosses
        (argminQ (train env model opt trainDL valDL epochs pretrained dropout
          fsInit root).valLosses) := by
  obtain ⟨hm, hs, hv, -, -⟩ :=
    train_proj env model opt trainDL valDL epochs pretrained dropout fsInit root
  set L := trainLoop env trainDL valDL (runFolder root pretrained dropout) epochs
    (⟨model, opt, [], [], fsInit⟩ : TrainState M S) with hL
  have hsl : L.saves.length = epochs := by
    rw [hL, trainLoop_saves env trainDL valDL (runFolder root pretrained dropout)
      epochs ⟨model, opt, [], [], fsInit⟩]
    simp
  have hvl : L.valLosses.length = epochs := by
    rw [hL, trainLoop_valLosses env trainDL valDL (runFolder root pretrained dropout)
      epochs ⟨model, opt, [], [], fsInit⟩]
    simp
  have hvne : L.valLosses ≠ [] := by
    have hpos : 0 < L.valLosses.length := by rw [hvl]; omega
    exact List.length_pos.mp hpos
  obtain ⟨hfirst, hminv⟩ := argminQ_spec L.valLosses hvne
  have hjlt : argminQ L.valLosses < epochs := by rw [← hvl]; exact hfirst.1
  constructor
  · rw [hm, hs, hv]
    exact getD_default_eq L.saves (argminQ L.valLosses) L.model model
      (by rw [hsl]; exact hjlt)
  · rw [hv]
    exact hfirst

/-- Witness for C1 on `cenv` with two epochs: the recorded validation
losses tie at `[3, 3]` and the epoch-0 checkpoint is restored. -/
theorem C1_witness :
    ((1 : ℕ) ≤ 2 ∧ ([()] : List Unit) ≠ [] ∧
        (train cenv 0 ⟨0, none⟩ [()] [()] 2 false 0 fsEmpty "root").valLosses = [3, 3] ∧
        (train cenv 0 ⟨0, none⟩ [()] [()] 2 false 0 fsEmpty "root").model = 0) ∧
      ((train cenv 0 ⟨0, none⟩ [()] [()] 2 false 0 fsEmpty "root").model =
          (train cenv 0 ⟨0, none⟩ [()] [()] 2 false 0 fsEmpty "root").saves.getD
            (argminQ (train cenv 0 ⟨0, none⟩ [()] [()] 2 false 0 fsEmpty "root").valLosses) 0 ∧
        isFirstArgmin
          (train cenv 0 ⟨0, none⟩ [()] [()] 2 false 0 fsEmpty "root").valLosses
          (argminQ (train cenv 0 ⟨0, none⟩ [()] [()] 2 false 0 fsEmpty "root").valLosses)) :=
  ⟨⟨by decide, by decide,
      by norm_num [train, trainLoop, trainEpoch, training_step, training_stepAux,
        validation_step, validation_stepAux, cenv],
      by norm_num [train, trainLoop, trainEpoch, training_step, training_stepAux,
        validation_step, validation_stepAux, cenv, argminQ, listMin]⟩,
    C1_train_restores_first_min_loss_checkpoint cenv 0 ⟨0, none⟩ [()] [()] 2 false 0
      fsEmpty "root" (by decide) (by decide) (by decide)⟩

/-- C2 is violated by the code: after `train` returns, the optimizer that
was passed in still carries all the per-parameter state it accumulated
over the training epochs — line 89 only assigns a fresh
`torch.optim.AdamW` to the previously nonexistent attribute
`optimizer.params`, which torch never reads, instead of rebuilding the
optimizer.  Concretely, with an optimizer state counting `step` calls
and two one-batch epochs, the returned optimizer's state is `2`, not the
fresh state `0` that a reset would give, while the stray `params`
attribute holds the fresh AdamW. -/
theorem C2_optimizer_keeps_accumulated_state :
    (train cenv 0 ⟨0, none⟩ [()] [()] 2 false 0 fsEmpty "root").opt.state = 2 ∧
      cenv.adamwFresh = 0 ∧
      (train cenv 0 ⟨0, none⟩ [()] [()] 2 false 0 fsEmpty "root").opt.state ≠
        cenv.adamwFresh ∧
      (train cenv 0 ⟨0, none⟩ [()] [()] 2 false 0 fsEmpty "root").opt.params =
        some cenv.adamwFresh := by
  refine ⟨?_, rfl, ?_, ?_⟩ <;> decide

/-- C3: checkpoint `i` holds the parameters the model had entering epoch
`i` — the save precedes the epoch's training and validation steps — so
the checkpoints are exactly the pre-epoch states for epochs `0..E-1`
(the post-update state of the final epoch is never persisted), the
validation loss recorded for epoch `i` is produced by the *post*-update
parameters of epoch `i`, and the checkpoint restored at the end holds
the parameters the model had entering the minimum-loss epoch, not those
that produced that epoch's recorded loss. -/
theorem C3_checkpoints_hold_pre_epoch_states {M S B : Type}
    (env : StepEnv M S B) (model : M) (opt : Optimizer S)
    (trainDL valDL : List B) (epochs : ℕ) (pretrained : Bool) (dropout : ℚ)
    (fsInit : FS) (root : String)
    (hE : 1 ≤ epochs) (hT : trainDL ≠ []) (hV : valDL ≠ []) (i : ℕ) (hi : i < epochs) :
    (train env model opt trainDL valDL epochs pretrained dropout fsInit root).saves =
        (List.range epochs).map
          (fun k => (iterMS env trainDL k (model, opt.state)).1) ∧
      (train env model opt trainDL valDL epochs pretrained dropout fsInit root).saves.getD
          i model = (iterMS env trainDL i (model, opt.state)).1 ∧
      (train env model opt trainDL valDL epochs pretrained dropout fsInit root).valLosses.getD
          i 0 =
        (validation_step env (iterMS env trainDL (i + 1) (model, opt.state)).1 valDL).2 ∧
      (train env model opt trainDL valDL epochs pretrained dropout fsInit root).model =
        (iterMS env trainDL
          (argminQ (train env model opt trainDL valDL epochs pretrained dropout
            fsInit root).valLosses) (model, opt.state)).1 := by
  obtain ⟨hm, hs, hv, -, -⟩ :=
    train_proj env model opt trainDL valDL epochs pretrained dropout fsInit root
  set L := trainLoop env trainDL valDL (runFolder root pretrained dropout) epochs
    (⟨model, opt, [], [], fsInit⟩ : TrainState M S) with hL
  have hsaves : L.saves =
      (List.range epochs).map (fun k => (iterMS env trainDL k (model, opt.state)).1) := by
    rw [hL, trainLoop_saves env trainDL valDL (runFolder root pretrained dropout)
      epochs ⟨model, opt, [], [], fsInit⟩]
    simp
  have hvll : L.valLosses =
      (List.range epochs).map
        (fun k => (validation_step env
          (iterMS env trainDL (k + 1) (model, opt.state)).1 valDL).2) := by
    rw [hL, trainLoop_valLosses env trainDL valDL (runFolder root pretrained dropout)
      epochs ⟨model, opt, [], [], fsInit⟩]
    simp
  have hgetD : ∀ (f : ℕ → M) (dflt : M),
      ((List.range epochs).map f).getD i dflt = f i := by
    intro f dflt
    have hlen : i < ((List.range epochs).map f).length := by
      simpa using hi
    rw [List.getD_eq_getElem _ _ hlen, List.getElem_map, List.getElem_range]
  have hgetDQ : ∀ (g : ℕ → ℚ),
      ((List.range epochs).map g).getD i 0 = g i := by
    intro g
    have hlen : i < ((List.range epochs).map g).length := by
      simpa using hi
    rw [List.getD_eq_getElem _ _ hlen, List.getElem_map, List.getElem_range]
  have hvl : L.valLosses.length = epochs := by rw [hvll]; simp
  have hvne : L.valLosses ≠ [] := by
    have hpos : 0 < L.valLosses.length := by rw [hvl]; omega
    exact List.length_pos.mp hpos
  obtain ⟨hfirst, -⟩ := argminQ_spec L.valLosses hvne
  have hjlt : argminQ L.valLosses < epochs := by rw [← hvl]; exact hfirst.1
  refine ⟨?_, ?_, ?_, ?_⟩
  · rw [hs]; exact hsaves
  · rw [hs, hsaves]; exact hgetD _ model
  · rw [hv, hvll]; exact hgetDQ _
  · rw [hm, hv, hsaves]
    have hlen : argminQ L.valLosses <
        ((List.range epochs).map
          (fun k => (iterMS env trainDL k (model, opt.state)).1)).length := by
      simpa using hjlt
    rw [List.getD_eq_getElem _ _ hlen, List.getElem_map, List.getElem_range]

/-- Witness for C3 on `cenv` with two epochs, at epoch index 1: the
checkpoint holds the pre-epoch model version `1`, while the loss
recorded for epoch 1 came from version `2`. -/
theorem C3_witness :
    ((1 : ℕ) ≤ 2 ∧ ([()] : List Unit) ≠ [] ∧ (1 : ℕ) < 2) ∧
      ((train cenv 0 ⟨0, none⟩ [()] [()] 2 false 0 fsEmpty "root").saves =
          (List.range 2).map (fun k => (iterMS cenv [()] k (0, 0)).1) ∧
        (train cenv 0 ⟨0, none⟩ [()] [()] 2 false 0 fsEmpty "root").saves.getD 1 0 =
          (iterMS cenv [()] 1 (0, 0)).1 ∧
        (train cenv 0 ⟨0, none⟩ [()] [()] 2 false 0 fsEmpty "root").valLosses.getD 1 0 =
          (validation_step cenv (iterMS cenv [()] (1 + 1) (0, 0)).1 [()]).2 ∧
        (train cenv 0 ⟨0, none⟩ [()] [()] 2 false 0 fsEmpty "root").model =
          (iterMS cenv [()]
            (argminQ (train cenv 0 ⟨0, none⟩ [()] [()] 2 false 0 fsEmpty "root").valLosses)
            (0, 0)).1) :=
  ⟨⟨by decide, by decide, by decide⟩,
    C3_checkpoints_hold_pre_epoch_states cenv 0 ⟨0, none⟩ [()] [()] 2 false 0
      fsEmpty "root" (by decide) (by decide) (by decide) 1 (by decide)⟩

/-- With `dropout = 0` the batch loop of `evaluate` never enters the MCD
block: it succeeds, leaves the MCD confusion matrix and the MCD running
accuracy untouched, and makes exactly one forward pass per batch. -/
theorem evalLoop_no_dropout {B : Type} (env : EvalEnv B) (T : Option ℕ) :
    ∀ (bs : List B) (st : EvalState),
      ∃ st2, evalLoop env 0 T bs st = Except.ok st2 ∧ st2.cmMcd = st.cmMcd ∧
        st2.accMcd = st.accMcd ∧ st2.passes = st.passes + bs.length := by
  intro bs
  induction bs with
  | nil => intro st; exact ⟨st, rfl, rfl, rfl, by simp⟩
  | cons b bs ih =>
    intro st
    have hbatch : evalBatch env 0 T b st = Except.ok
        ⟨update_confusion_matrix st.cm (env.pointPreds b) (env.labels b), st.cmMcd,
          st.acc + accuracy_score (env.labels b) (env.pointPreds b), st.accMcd,
          st.passes + 1⟩ := by
      simp only [evalBatch]
      rw [if_neg (lt_irrefl (0 : ℚ))]
    obtain ⟨st2, h1, h2, h3, h4⟩ := ih
      ⟨update_confusion_matrix st.cm (env.pointPreds b) (env.labels b), st.cmMcd,
        st.acc + accuracy_score (env.labels b) (env.pointPreds b), st.accMcd,
        st.passes + 1⟩
    refine ⟨st2, ?_, h2, h3, ?_⟩
    · have hloop : evalLoop env 0 T (b :: bs) st =
          match evalBatch env 0 T b st with
          | Except.error e => Except.error e
          | Except.ok st1 => evalLoop env 0 T bs st1 := rfl
      rw [hloop, hbatch]
      exact h1
    · rw [h4]
      show st.passes + 1 + bs.length = st.passes + (b :: bs).length
      rw [List.length_cons]
      omega

/-- C5: for every call to `evaluate` with `dropout = 0` (on a dataloader
on which the Python call completes) the MCD branch never executes: the
loop succeeds with the MCD confusion matrix still all-zero and the MCD
running accuracy still `0`, exactly one forward pass per batch is made
(no extra stochastic passes), and the final file system differs from the
initial one at most at `test_accuracy.txt` and `confusion_matrix.txt` —
in particular no `test_accuracy_mcd.txt` or `confusion_matrix_mcd.txt`
is ever written. -/
theorem C5_zero_dropout_never_runs_mcd {B : Type} (env : EvalEnv B)
    (dl : List B) (T : Option ℕ) (fsInit : FS) (root : String)
    (pretrained : Bool) (h : dl ≠ []) :
    (∃ st, evalLoop env 0 T dl evalInit = Except.ok st ∧ st.cmMcd = cmZero ∧
        st.accMcd = 0 ∧ st.passes = dl.length) ∧
      ∃ acc fs2,
        evaluate env dl pretrained 0 T fsInit root = Except.ok (acc, fs2) ∧
          ∀ p, p ≠ runFolder root pretrained 0 ++ sep ++ "test_accuracy.txt" →
            p ≠ runFolder root pretrained 0 ++ sep ++ "confusion_matrix.txt" →
            fs2 p = fsInit p := by
  obtain ⟨st, h1, h2, h3, h4⟩ := evalLoop_no_dropout env T dl evalInit
  have hlen : ¬dl.length = 0 := by
    intro h0; exact h (List.length_eq_zero.mp h0)
  refine ⟨⟨st, h1, h2, h3, by rw [h4]; show 0 + dl.length = dl.length; omega⟩, ?_⟩
  have heval : evaluate env dl pretrained 0 T fsInit root = Except.ok
      (st.acc / ((dl.length : ℕ) : ℚ),
        fsAppend
          (write_to_file fsInit (runFolder root pretrained 0) "test_accuracy.txt"
            (toString (st.acc / ((dl.length : ℕ) : ℚ)) ++ "\n"))
          (runFolder root pretrained 0 ++ sep ++ "confusion_matrix.txt")
          (cmSavetxt st.cm)) := by
    simp only [evaluate, h1]
    rw [if_neg hlen, if_neg (lt_irrefl (0 : ℚ))]
  refine ⟨_, _, heval, ?_⟩
  intro p hp1 hp2
  simp only [fsAppend, write_to_file]
  rw [if_neg hp2]
  rw [if_neg hp1]

/-- Witness for C5 on a one-batch evaluation with `T` left at `None`. -/
theorem C5_witness :
    (([()] : List Unit) ≠ []) ∧
      ((∃ st, evalLoop eenv 0 none [()] evalInit = Except.ok st ∧ st.cmMcd = cmZero ∧
          st.accMcd = 0 ∧ st.passes = ([()] : List Unit).length) ∧
        ∃ acc fs2,
          evaluate eenv [()] false 0 none fsEmpty "root" = Except.ok (acc, fs2) ∧
            ∀ p, p ≠ runFolder "root" false 0 ++ sep ++ "test_accuracy.txt" →
              p ≠ runFolder "root" false 0 ++ sep ++ "confusion_matrix.txt" →
              fs2 p = fsEmpty p) :=
  ⟨by decide, C5_zero_dropout_never_runs_mcd eenv [()] none fsEmpty "root" false (by decide)⟩

/-- C10: for every non-empty dataloader, calling `evaluate` with
`dropout > 0` while leaving `T` at its default `None` raises the
uncaught `TypeError` of `range(None)` in the MCD sampling block of the
very first batch, before any log or confusion-matrix file is written:
the call aborts with the file system unchanged.  Although `T` is
declared optional, it is mandatory whenever `dropout > 0`. -/
theorem C10_dropout_without_T_raises {B : Type} (env : EvalEnv B) (b : B)
    (bs : List B) (pretrained : Bool) (dropout : ℚ) (fsInit : FS)
    (root : String) (hd : 0 < dropout) :
    evaluate env (b :: bs) pretrained dropout none fsInit root =
      Except.error (rangeNoneMsg, fsInit) := by
  have hbatch : evalBatch env dropout none b evalInit =
      Except.error rangeNoneMsg := by
    simp only [evalBatch]
    rw [if_pos hd]
  have hloop : evalLoop env dropout none (b :: bs) evalInit =
      Except.error rangeNoneMsg := by
    have hstep : evalLoop env dropout none (b :: bs) evalInit =
        match evalBatch env dropout none b evalInit with
        | Except.error e => Except.error e
        | Except.ok st1 => evalLoop env dropout none bs st1 := rfl
    rw [hstep, hbatch]
  unfold evaluate
  rw [hloop]

/-- Witness for C10: a one-batch dataloader with `dropout = 1`. -/
theorem C10_witness :
    ((0 : ℚ) < 1) ∧
      evaluate eenv [()] false 1 none fsEmpty "root" =
        Except.error (rangeNoneMsg, fsEmpty) :=
  ⟨by decide,
    C10_dropout_without_T_raises eenv () [] false 1 fsEmpty "root" (by decide)⟩

end BertHelpers
